import Mathlib

/-!
Verification of the serial input protocol of the Skyfall Escape repository:
the host-side `SerialController` (file `pygametiro.py`), the device-side
`SimpleButton` debouncer (file `shooting_game/thonnygame.py`), and the
per-frame obstacle/bullet collision resolution of the game loop.

Bytes are modelled as natural numbers, Python strings as `List Char`,
Python integer milliseconds as natural numbers (monotonic clock values),
and MicroPython `time.ticks_diff` as subtraction in `Int`.
-/

set_option maxHeartbeats 1600000

namespace Skyfall

/-! ### Python string primitives used by the host parser

`pyIsSpace` covers the whitespace characters recognized by Python's
`str.split` / `str.strip` (ASCII whitespace, the C1 separators, and the
Unicode space characters).  `pyUpper` models `str.upper` on the ASCII
letters (the only characters the protocol compares); other characters are
left unchanged. -/

def pyIsSpace (c : Char) : Bool :=
  let n := c.toNat
  n = 0x20 || (0x9 ≤ n && n ≤ 0xD) || (0x1C ≤ n && n ≤ 0x1F) || n = 0x85 || n = 0xA0 ||
    n = 0x1680 || (0x2000 ≤ n && n ≤ 0x200A) || n = 0x2028 || n = 0x2029 || n = 0x202F ||
    n = 0x205F || n = 0x3000

/-- Python `str.strip()` (no argument): remove leading and trailing whitespace. -/
def pyStrip (l : List Char) : List Char :=
  ((l.dropWhile pyIsSpace).reverse.dropWhile pyIsSpace).reverse

def pySplitAux : List Char → List Char → List (List Char)
  | [], acc => if acc.isEmpty then [] else [acc.reverse]
  | c :: rest, acc =>
    if pyIsSpace c then
      if acc.isEmpty then pySplitAux rest [] else acc.reverse :: pySplitAux rest []
    else pySplitAux rest (c :: acc)

/-- Python `str.split()` (no argument): whitespace-separated tokens, no empties. -/
def pySplit (l : List Char) : List (List Char) := pySplitAux l []

/-- Python `str.upper()` restricted to the ASCII letters. -/
def pyUpper (l : List Char) : List Char := l.map Char.toUpper

/-! ### `bytes.decode("utf-8", errors="ignore")`

Standard UTF-8 decoding; every maximal invalid subpart is dropped, as with
CPython's `ignore` error handler. -/

def isCont (b : Nat) : Bool := 0x80 ≤ b && b ≤ 0xBF

def pyDecodeUtf8IgnoreAux : Nat → List Nat → List Char
  | _, [] => []
  | 0, _ :: _ => []
  | fuel + 1, b :: r1 =>
    if b < 0x80 then Char.ofNat b :: pyDecodeUtf8IgnoreAux fuel r1
    else if 0xC2 ≤ b && b ≤ 0xDF then
      match r1 with
      | [] => []
      | b1 :: r2 =>
        if isCont b1 then
          Char.ofNat ((b - 0xC0) * 0x40 + (b1 - 0x80)) :: pyDecodeUtf8IgnoreAux fuel r2
        else pyDecodeUtf8IgnoreAux fuel (b1 :: r2)
    else if 0xE0 ≤ b && b ≤ 0xEF then
      match r1 with
      | [] => []
      | b1 :: r2 =>
        if (if b = 0xE0 then 0xA0 ≤ b1 && b1 ≤ 0xBF
            else if b = 0xED then 0x80 ≤ b1 && b1 ≤ 0x9F
            else isCont b1) then
          match r2 with
          | [] => []
          | b2 :: r3 =>
            if isCont b2 then
              Char.ofNat ((b - 0xE0) * 0x1000 + (b1 - 0x80) * 0x40 + (b2 - 0x80)) ::
                pyDecodeUtf8IgnoreAux fuel r3
            else pyDecodeUtf8IgnoreAux fuel (b2 :: r3)
        else pyDecodeUtf8IgnoreAux fuel (b1 :: r2)
    else if 0xF0 ≤ b && b ≤ 0xF4 then
      match r1 with
      | [] => []
      | b1 :: r2 =>
        if (if b = 0xF0 then 0x90 ≤ b1 && b1 ≤ 0xBF
            else if b = 0xF4 then 0x80 ≤ b1 && b1 ≤ 0x8F
            else isCont b1) then
          match r2 with
          | [] => []
          | b2 :: r3 =>
            if isCont b2 then
              match r3 with
              | [] => []
              | b3 :: r4 =>
                if isCont b3 then
                  Char.ofNat ((b - 0xF0) * 0x40000 + (b1 - 0x80) * 0x1000 +
                      (b2 - 0x80) * 0x40 + (b3 - 0x80)) :: pyDecodeUtf8IgnoreAux fuel r4
                else pyDecodeUtf8IgnoreAux fuel (b3 :: r4)
            else pyDecodeUtf8IgnoreAux fuel (b2 :: r3)
        else pyDecodeUtf8IgnoreAux fuel (b1 :: r2)
    else pyDecodeUtf8IgnoreAux fuel r1

/-- `bytes.decode("utf-8", errors="ignore")`.  The fuel argument (one unit per
decoded or skipped sequence, at least one byte each) makes the recursion
structural; `l.length` units always suffice. -/
def pyDecodeUtf8Ignore (l : List Nat) : List Char := pyDecodeUtf8IgnoreAux l.length l

/-! ### The `SerialController` class (`pygametiro.py`, lines 64–126)

`conn` records whether `_open` returned a live connection (`serial.Serial`
succeeded) or `None` (any exception during opening). -/

structure SerialController where
  conn : Bool
  buffer : List Nat
  left : Bool
  right : Bool
  shoot : Bool
  reported_error : Bool
deriving DecidableEq, Repr

/-- `SerialController.__init__` combined with `_open`: `openOk` tells whether
`serial.Serial(port, baud, timeout=0.0)` succeeded. -/
def SerialController.init (openOk : Bool) : SerialController :=
  { conn := openOk, buffer := [], left := false, right := false, shoot := false,
    reported_error := false }

/-- `SerialController._handle_line` (lines 101–120). -/
def SerialController.handle_line (c : SerialController) (line : List Char) : SerialController :=
  if line.isEmpty then c
  else
    let parts := pySplit (pyUpper line)
    let name := parts.headD []
    let state := parts.getD 1 []
    if name = [ 'A' ] then
      if state = "DOWN".data ∨ state = "HELD".data then { c with left := true }
      else if state = "UP".data then { c with left := false }
      else c
    else if name = [ 'B' ] then
      if state = "DOWN".data ∨ state = "HELD".data then { c with right := true }
      else if state = "UP".data then { c with right := false }
      else c
    else if name = [ 'C' ] then
      if state = "DOWN".data ∨ state = "HELD".data then { c with shoot := true }
      else c
    else c

/-- `SerialController.consume_shot` (lines 122–126): returned boolean paired
with the controller after the call. -/
def SerialController.consume_shot (c : SerialController) : Bool × SerialController :=
  if c.shoot then (true, { c with shoot := false }) else (false, c)

/-- `self.buffer.split(b"\n", 1)` guarded by `b"\n" in self.buffer`:
`some (line, rest)` when a newline byte is present, `none` otherwise. -/
def splitFirstNewline : List Nat → Option (List Nat × List Nat)
  | [] => none
  | b :: rest =>
    if b = 10 then some ([], rest)
    else (splitFirstNewline rest).map (fun p => (b :: p.1, p.2))

theorem handle_line_buffer (c : SerialController) (l : List Char) :
    (c.handle_line l).buffer = c.buffer := by
  unfold SerialController.handle_line
  dsimp only
  repeat' split
  all_goals rfl

theorem handle_line_conn (c : SerialController) (l : List Char) :
    (c.handle_line l).conn = c.conn := by
  unfold SerialController.handle_line
  dsimp only
  repeat' split
  all_goals rfl

theorem handle_line_reported_error (c : SerialController) (l : List Char) :
    (c.handle_line l).reported_error = c.reported_error := by
  unfold SerialController.handle_line
  dsimp only
  repeat' split
  all_goals rfl

theorem splitFirstNewline_length :
    ∀ (l a r : List Nat), splitFirstNewline l = some (a, r) → r.length < l.length := by
  intro l
  induction l with
  | nil => intro a r h; simp [splitFirstNewline] at h
  | cons b rest ih =>
    intro a r h
    simp only [splitFirstNewline] at h
    split at h
    · cases h
      simp
    · cases hs : splitFirstNewline rest with
      | none => rw [hs] at h; cases h
      | some p =>
        rw [hs] at h
        simp only [Option.map_some', Option.some.injEq, Prod.mk.injEq] at h
        obtain ⟨h1, h2⟩ := h
        subst h2
        have := ih p.1 p.2 (by rw [hs])
        simp only [List.length_cons]
        omega

/-- The `while b"\n" in self.buffer` loop body of `SerialController.update`
(lines 97–99). -/
def processBuffer (c : SerialController) : SerialController :=
  match h : splitFirstNewline c.buffer with
  | none => c
  | some (line, rest) =>
    processBuffer (SerialController.handle_line { c with buffer := rest }
      (pyStrip (pyDecodeUtf8Ignore line)))
termination_by c.buffer.length
decreasing_by
  simp only [handle_line_buffer]
  exact splitFirstNewline_length c.buffer line rest h

/-- Outcome of `self.conn.read_all()`: the bytes read, or a `SerialException`. -/
inductive ReadResult where
  | ok (data : List Nat)
  | err
deriving DecidableEq, Repr

/-- `SerialController.update` (lines 84–99). -/
def SerialController.update (c : SerialController) (r : ReadResult) : SerialController :=
  if !c.conn then c
  else
    match r with
    | .err => if !c.reported_error then { c with reported_error := true } else c
    | .ok data =>
      if data.isEmpty then c
      else processBuffer { c with buffer := c.buffer ++ data }

/-- Deliver a sequence of byte chunks through successive `update` calls. -/
def feedChunks (c : SerialController) (chunks : List (List Nat)) : SerialController :=
  chunks.foldl (fun c d => c.update (ReadResult.ok d)) c

/-- ASCII text as a byte list, for concrete wire inputs. -/
def asciiBytes (s : String) : List Nat := s.data.map Char.toNat

theorem processBuffer_none (c : SerialController) (h : splitFirstNewline c.buffer = none) :
    processBuffer c = c := by
  rw [processBuffer.eq_def]
  split
  · rfl
  · rename_i l r heq
    rw [h] at heq
    cases heq

theorem processBuffer_some (c : SerialController) (line rest : List Nat)
    (h : splitFirstNewline c.buffer = some (line, rest)) :
    processBuffer c =
      processBuffer (SerialController.handle_line { c with buffer := rest }
        (pyStrip (pyDecodeUtf8Ignore line))) := by
  rw [processBuffer.eq_def]
  split
  · rename_i heq
    rw [h] at heq
    cases heq
  · rename_i l r heq
    rw [h] at heq
    cases heq
    rfl

theorem splitFirstNewline_append_some :
    ∀ (a l r d : List Nat), splitFirstNewline a = some (l, r) →
      splitFirstNewline (a ++ d) = some (l, r ++ d) := by
  intro a
  induction a with
  | nil => intro l r d h; simp [splitFirstNewline] at h
  | cons b rest ih =>
    intro l r d h
    simp only [splitFirstNewline] at h
    rw [List.cons_append]
    simp only [splitFirstNewline]
    split at h
    · rename_i hb
      rw [if_pos hb]
      simp only [Option.some.injEq, Prod.mk.injEq] at h
      obtain ⟨rfl, rfl⟩ := h
      rfl
    · rename_i hb
      rw [if_neg hb]
      cases hs : splitFirstNewline rest with
      | none => rw [hs] at h; cases h
      | some p =>
        rw [hs] at h
        simp only [Option.map_some', Option.some.injEq, Prod.mk.injEq] at h
        obtain ⟨h1, h2⟩ := h
        subst h2
        subst h1
        rw [ih p.1 p.2 d hs]
        rfl

theorem handle_line_set_buffer (c : SerialController) (X : List Nat) (l : List Char) :
    SerialController.handle_line { c with buffer := X } l =
      { c.handle_line l with buffer := X } := by
  unfold SerialController.handle_line
  dsimp only
  repeat' split
  all_goals rfl

theorem handle_line_buffer_irrel (c : SerialController) (X Y : List Nat) (l : List Char) :
    SerialController.handle_line { c with buffer := X } l =
      { SerialController.handle_line { c with buffer := Y } l with buffer := X } := by
  rw [handle_line_set_buffer c X l, handle_line_set_buffer c Y l]

theorem processBuffer_conn (c : SerialController) : (processBuffer c).conn = c.conn := by
  induction c using processBuffer.induct with
  | case1 c h => rw [processBuffer_none c h]
  | case2 c line rest h ih =>
    rw [processBuffer_some c line rest h]
    rw [ih, handle_line_conn]

/-- Draining the buffer before appending more bytes does not change the final
controller: the drained lines do not depend on bytes that arrive later. -/
theorem processBuffer_append (c : SerialController) (d : List Nat) :
    processBuffer { c with buffer := c.buffer ++ d } =
      processBuffer { processBuffer c with buffer := (processBuffer c).buffer ++ d } := by
  induction c using processBuffer.induct with
  | case1 c h => rw [processBuffer_none c h]
  | case2 c line rest h ih =>
    have hsplit : splitFirstNewline
        (({ c with buffer := c.buffer ++ d } : SerialController)).buffer =
          some (line, rest ++ d) := splitFirstNewline_append_some c.buffer line rest d h
    rw [processBuffer_some _ _ _ hsplit]
    show processBuffer
        (SerialController.handle_line { c with buffer := rest ++ d }
          (pyStrip (pyDecodeUtf8Ignore line))) = _
    rw [handle_line_buffer_irrel c (rest ++ d) rest (pyStrip (pyDecodeUtf8Ignore line))]
    rw [show (SerialController.handle_line { c with buffer := rest }
        (pyStrip (pyDecodeUtf8Ignore line))).buffer = rest from handle_line_buffer _ _] at ih
    rw [processBuffer_some c line rest h]
    exact ih

theorem update_ok_nil (c : SerialController) : c.update (ReadResult.ok []) = c := by
  rw [SerialController.update]
  split
  · rfl
  · simp

theorem update_ok_ne_nil (c : SerialController) (hc : c.conn = true) (d : List Nat)
    (hd : ¬d.isEmpty = true) :
    c.update (ReadResult.ok d) = processBuffer { c with buffer := c.buffer ++ d } := by
  rw [SerialController.update]
  rw [if_neg (show ¬(!c.conn) = true by rw [hc]; simp)]
  simp [hd]

theorem update_ok_append (c : SerialController) (d1 d2 : List Nat) :
    (c.update (ReadResult.ok d1)).update (ReadResult.ok d2) =
      c.update (ReadResult.ok (d1 ++ d2)) := by
  by_cases hc : c.conn = true
  · by_cases h1 : d1.isEmpty
    · have hd1 : d1 = [] := by simpa using h1
      subst hd1
      rw [update_ok_nil, List.nil_append]
    · by_cases h2 : d2.isEmpty
      · have hd2 : d2 = [] := by simpa using h2
        subst hd2
        rw [update_ok_nil, List.append_nil]
      · have hne12 : ¬(d1 ++ d2).isEmpty = true := by
          cases d1 <;> simp_all
        have hpc : (processBuffer { c with buffer := c.buffer ++ d1 }).conn = true := by
          rw [processBuffer_conn]
          exact hc
        rw [update_ok_ne_nil c hc d1 h1,
          update_ok_ne_nil (processBuffer { c with buffer := c.buffer ++ d1 }) hpc d2 h2,
          update_ok_ne_nil c hc (d1 ++ d2) hne12]
        rw [← processBuffer_append { c with buffer := c.buffer ++ d1 } d2]
        show processBuffer { c with buffer := c.buffer ++ d1 ++ d2 } = _
        rw [List.append_assoc]
  · have hcf : ∀ r, c.update r = c := by
      intro r
      rw [SerialController.update.eq_def]
      rw [if_pos (show (!c.conn) = true by simp [Bool.not_eq_true] at hc; simp [hc])]
    rw [hcf, hcf, hcf]

/-- C1: delivering a byte stream to `update` in arbitrary chunks produces
exactly the same controller state (buffer and flags, hence the same parsed
`(channel, state)` events in the same order) as delivering the concatenation
as one contiguous chunk. -/
theorem update_chunk_invariant :
    ∀ (c : SerialController) (chunks : List (List Nat)),
      feedChunks c chunks = c.update (ReadResult.ok chunks.flatten) := by
  intro c chunks
  induction chunks generalizing c with
  | nil =>
    show c = c.update (ReadResult.ok ([] : List (List Nat)).flatten)
    rw [show (([] : List (List Nat)).flatten) = [] from rfl, update_ok_nil]
  | cons d rest ih =>
    show feedChunks (c.update (ReadResult.ok d)) rest = _
    rw [ih, update_ok_append, List.flatten_cons]

/-- C4: `consume_shot` atomically reads and clears the one-shot shoot flag:
after a single `"C DOWN"` line, two successive calls return `true` then
`false`, and after any call the shoot flag is `false`. -/
theorem consume_shot_one_shot :
    ∀ c : SerialController,
      ((c.handle_line "C DOWN".data).consume_shot.1 = true ∧
        (c.handle_line "C DOWN".data).consume_shot.2.consume_shot.1 = false) ∧
      c.consume_shot.2.shoot = false := by
  intro c
  have h : c.handle_line "C DOWN".data = { c with shoot := true } := by
    simp +decide [SerialController.handle_line]
  refine ⟨⟨?_, ?_⟩, ?_⟩
  · rw [h]; simp [SerialController.consume_shot]
  · rw [h]; simp [SerialController.consume_shot]
  · by_cases hs : c.shoot <;> simp [SerialController.consume_shot, hs]

/-- C5: for channel `C`, `DOWN` and `HELD` set the one-shot shoot flag (leaving
the movement flags alone), and `"C UP"` leaves the controller unchanged
whatever its current flags: the shoot flag is press-triggered only. -/
theorem channelC_press_triggered :
    ∀ c : SerialController,
      c.handle_line "C DOWN".data = { c with shoot := true } ∧
      c.handle_line "C HELD".data = { c with shoot := true } ∧
      c.handle_line "C UP".data = c := by
  intro c
  refine ⟨?_, ?_, ?_⟩ <;> simp +decide [SerialController.handle_line]

/-- C7: when opening the serial transport fails, the controller degrades to a
permanent no-input state: after any sequence of `update` calls the movement
flags are still `false` and `consume_shot` returns `false`. -/
theorem failed_open_no_input :
    ∀ rs : List ReadResult,
      (rs.foldl SerialController.update (SerialController.init false)).left = false ∧
      (rs.foldl SerialController.update (SerialController.init false)).right = false ∧
      (rs.foldl SerialController.update (SerialController.init false)).consume_shot.1 = false := by
  have hfix : ∀ rs : List ReadResult,
      rs.foldl SerialController.update (SerialController.init false) =
        SerialController.init false := by
    intro rs
    induction rs with
    | nil => rfl
    | cons r rest ih =>
      simp only [List.foldl_cons]
      rw [show (SerialController.init false).update r = SerialController.init false from by
        simp [SerialController.update, SerialController.init]]
      exact ih
  intro rs
  rw [hfix]
  exact ⟨rfl, rfl, rfl⟩

/-- C6: a line whose first token is not a recognized channel, a line with no
state token, and an empty line all leave the three flags unchanged; a
malformed line does not disturb the processing of later lines in the same
buffer (after `"X DOWN\nA DOWN\n"` the `A DOWN` line still lands). -/
theorem malformed_line_ignored :
    (∀ (c : SerialController) (line : List Char),
        ((pySplit (pyUpper line)).headD [] ≠ [ 'A' ] ∧
            (pySplit (pyUpper line)).headD [] ≠ [ 'B' ] ∧
            (pySplit (pyUpper line)).headD [] ≠ [ 'C' ]) ∨
          (pySplit (pyUpper line)).length ≤ 1 →
        c.handle_line line = c) ∧
      ∀ c : SerialController, c.conn = true → c.buffer = [] →
        (c.update (ReadResult.ok (asciiBytes "X DOWN\nA DOWN\n"))).left = true ∧
        (c.update (ReadResult.ok (asciiBytes "X DOWN\nA DOWN\n"))).right = c.right ∧
        (c.update (ReadResult.ok (asciiBytes "X DOWN\nA DOWN\n"))).shoot = c.shoot := by
  have hmain : ∀ (c : SerialController) (line : List Char),
      ((pySplit (pyUpper line)).headD [] ≠ [ 'A' ] ∧
          (pySplit (pyUpper line)).headD [] ≠ [ 'B' ] ∧
          (pySplit (pyUpper line)).headD [] ≠ [ 'C' ]) ∨
        (pySplit (pyUpper line)).length ≤ 1 →
      c.handle_line line = c := by
    intro c line h
    unfold SerialController.handle_line
    dsimp only
    by_cases hemp : line.isEmpty
    · simp [hemp]
    · rw [if_neg (by simp [hemp])]
      rcases h with ⟨hA, hB, hC⟩ | hlen
      · rw [if_neg hA, if_neg hB, if_neg hC]
      · have hstate : (pySplit (pyUpper line)).getD 1 [] = [] :=
          List.getD_eq_default _ _ hlen
        rw [hstate]
        simp +decide [ite_self]
  refine ⟨hmain, ?_⟩
  intro c hconn hbuf
  have hupd : c.update (ReadResult.ok (asciiBytes "X DOWN\nA DOWN\n")) =
      processBuffer { c with buffer := c.buffer ++ asciiBytes "X DOWN\nA DOWN\n" } := by
    rw [SerialController.update]
    rw [hconn]
    simp +decide
  rw [hupd, hbuf]
  have hs1c : splitFirstNewline (([] : List Nat) ++ asciiBytes "X DOWN\nA DOWN\n") =
      some (asciiBytes "X DOWN", asciiBytes "A DOWN\n") := by decide
  have hs1 : splitFirstNewline
      (({ c with buffer := ([] : List Nat) ++ asciiBytes "X DOWN\nA DOWN\n" } :
        SerialController)).buffer = some (asciiBytes "X DOWN", asciiBytes "A DOWN\n") := hs1c
  rw [processBuffer_some _ _ _ hs1]
  rw [hmain _ _ (Or.inl (by refine ⟨?_, ?_, ?_⟩ <;> decide))]
  show (processBuffer { c with buffer := asciiBytes "A DOWN\n" }).left = true ∧
    (processBuffer { c with buffer := asciiBytes "A DOWN\n" }).right = c.right ∧
    (processBuffer { c with buffer := asciiBytes "A DOWN\n" }).shoot = c.shoot
  have hs2c : splitFirstNewline (asciiBytes "A DOWN\n") = some (asciiBytes "A DOWN", []) := by
    decide
  have hs2 : splitFirstNewline
      (({ c with buffer := asciiBytes "A DOWN\n" } : SerialController)).buffer =
        some (asciiBytes "A DOWN", []) := hs2c
  rw [processBuffer_some _ _ _ hs2]
  have hAdown : ∀ c' : SerialController,
      c'.handle_line (pyStrip (pyDecodeUtf8Ignore (asciiBytes "A DOWN"))) =
        { c' with left := true } := by
    intro c'
    simp +decide [SerialController.handle_line]
  rw [hAdown]
  show (processBuffer { c with buffer := [], left := true }).left = true ∧
    (processBuffer { c with buffer := [], left := true }).right = c.right ∧
    (processBuffer { c with buffer := [], left := true }).shoot = c.shoot
  have hs3 : splitFirstNewline
      (({ c with buffer := [], left := true } : SerialController)).buffer = none := rfl
  rw [processBuffer_none _ hs3]
  exact ⟨rfl, rfl, rfl⟩

/-- Concrete instance of `malformed_line_ignored`: `"X DOWN"` leaves a fresh
controller unchanged, and a following `"A DOWN"` line in the same chunk is
still applied. -/
theorem malformed_line_ignored_witness :
    (SerialController.init true).handle_line "X DOWN".data = SerialController.init true ∧
      ((SerialController.init true).update
          (ReadResult.ok (asciiBytes "X DOWN\nA DOWN\n"))).left = true :=
  ⟨malformed_line_ignored.1 _ _ (Or.inl (by refine ⟨?_, ?_, ?_⟩ <;> decide)),
    (malformed_line_ignored.2 (SerialController.init true) rfl rfl).1⟩

/-- C8: line parsing is case-insensitive: two lines with the same uppercasing
produce the same controller state.  In particular `"a down"` is processed
exactly like `"A DOWN"`. -/
theorem handle_line_case_insensitive (c : SerialController) (l1 l2 : List Char)
    (h : pyUpper l1 = pyUpper l2) : c.handle_line l1 = c.handle_line l2 := by
  have hlen : l1.length = l2.length := by
    have := congrArg List.length h
    simpa [pyUpper] using this
  have hemp : l1.isEmpty = l2.isEmpty := by
    cases l1 <;> cases l2 <;> simp_all
  unfold SerialController.handle_line
  rw [hemp, h]

/-- Concrete instance of `handle_line_case_insensitive`: `"a down"` versus
`"A DOWN"` on a fresh controller. -/
theorem handle_line_case_insensitive_witness :
    pyUpper "a down".data = pyUpper "A DOWN".data ∧
      (SerialController.init true).handle_line "a down".data =
        (SerialController.init true).handle_line "A DOWN".data :=
  ⟨by decide, handle_line_case_insensitive (SerialController.init true) _ _ (by decide)⟩

/-! ### Device side: the `SimpleButton` debouncer (`shooting_game/thonnygame.py`)

Pin levels are the integers `0` (pressed, pull-up wiring) and `1` (released);
times are monotonic milliseconds, `time.ticks_diff` is modelled as `Int`
subtraction. -/

def DEBOUNCE_MS : Nat := 25

def HELD_PRINT_INTERVAL_MS : Nat := 200

/-- `time.ticks_diff` on a non-wrapping monotonic clock. -/
def ticks_diff (a b : Nat) : Int := (a : Int) - (b : Int)

inductive Event where
  | down
  | up
  | held
deriving DecidableEq, Repr

structure SimpleButton where
  last_raw : Nat
  last_change : Nat
  stable : Nat
  pressed_time : Option Nat
  last_held_print : Option Nat
deriving DecidableEq, Repr

/-- `SimpleButton.__init__`: `initRaw` is the pin level read at construction,
`t0` the construction time. -/
def SimpleButton.init (initRaw t0 : Nat) : SimpleButton :=
  { last_raw := initRaw, last_change := t0, stable := initRaw, pressed_time := none,
    last_held_print := none }

/-- Lines 38–41 of `update`: the raw sample changed, restart the debounce
window. -/
def SimpleButton.rawPhase (b : SimpleButton) (raw t : Nat) : SimpleButton :=
  if raw ≠ b.last_raw then { b with last_raw := raw, last_change := t } else b

/-- Lines 43–63 of `update`: commit a stable transition once the raw level has
survived the debounce window, emitting `DOWN` or `UP`. -/
def SimpleButton.debouncePhase (b : SimpleButton) (raw t : Nat) : SimpleButton × List Event :=
  if ticks_diff t b.last_change ≥ (DEBOUNCE_MS : Int) then
    if raw ≠ b.stable then
      if raw = 0 then
        ({ b with stable := raw, pressed_time := some t, last_held_print := some t },
          [Event.down])
      else
        ({ b with stable := raw, pressed_time := none, last_held_print := none }, [Event.up])
    else (b, [])
  else (b, [])

/-- Lines 65–70 of `update`: the `HELD` heartbeat.  (`last_held_print` is
`some` whenever `pressed_time` is, so the `none` arm is unreachable on states
the device can actually be in.) -/
def SimpleButton.heldPhase (b : SimpleButton) (t : Nat) : SimpleButton × List Event :=
  if b.stable = 0 ∧ b.pressed_time.isSome then
    match b.last_held_print with
    | some lh =>
      if ticks_diff t lh ≥ (HELD_PRINT_INTERVAL_MS : Int) then
        ({ b with last_held_print := some t }, [Event.held])
      else (b, [])
    | none => (b, [])
  else (b, [])

/-- `SimpleButton.update(current_time)`, with the pin sample made explicit:
returns the updated state and the events `send` was called with, in order. -/
def SimpleButton.update (b : SimpleButton) (raw t : Nat) : SimpleButton × List Event :=
  let b1 := b.rawPhase raw t
  let s2 := b1.debouncePhase raw t
  let s3 := s2.1.heldPhase t
  (s3.1, s2.2 ++ s3.2)

/-- Run a poll trace: each sample is a `(raw level, current_time)` pair; every
emitted event is tagged with the poll time that produced it. -/
def runTrace (b : SimpleButton) : List (Nat × Nat) → SimpleButton × List (Nat × Event)
  | [] => (b, [])
  | s :: rest =>
    let st := b.update s.1 s.2
    let r := runTrace st.1 rest
    (r.1, st.2.map (fun e => (s.2, e)) ++ r.2)

/-- Spec-side view of the raw sample history: the latest raw sample together
with the time it last changed (the construction sample being the base). -/
def rawHistory (r0 t0 : Nat) (samples : List (Nat × Nat)) : Nat × Nat :=
  samples.foldl (fun p s => if s.1 ≠ p.1 then (s.1, s.2) else p) (r0, t0)

def isTransition : Event → Bool
  | Event.down => true
  | Event.up => true
  | Event.held => false

def isDownHeld : Event → Bool
  | Event.down => true
  | Event.up => false
  | Event.held => true

/-- The `DOWN`/`UP` events of a timed trace, in order. -/
def transitions (tevs : List (Nat × Event)) : List Event :=
  (tevs.map Prod.snd).filter isTransition

/-- The `DOWN`/`HELD` events of a timed trace, in order. -/
def downHeldEvents (tevs : List (Nat × Event)) : List (Nat × Event) :=
  tevs.filter (fun p => isDownHeld p.2)

theorem rawPhase_stable (b : SimpleButton) (raw t : Nat) :
    (b.rawPhase raw t).stable = b.stable := by
  unfold SimpleButton.rawPhase
  split <;> rfl

theorem rawPhase_pressed_time (b : SimpleButton) (raw t : Nat) :
    (b.rawPhase raw t).pressed_time = b.pressed_time := by
  unfold SimpleButton.rawPhase
  split <;> rfl

theorem rawPhase_last_held_print (b : SimpleButton) (raw t : Nat) :
    (b.rawPhase raw t).last_held_print = b.last_held_print := by
  unfold SimpleButton.rawPhase
  split <;> rfl

theorem rawPhase_last_raw (b : SimpleButton) (raw t : Nat) :
    (b.rawPhase raw t).last_raw = if raw ≠ b.last_raw then raw else b.last_raw := by
  unfold SimpleButton.rawPhase
  split <;> simp_all

theorem rawPhase_last_change (b : SimpleButton) (raw t : Nat) :
    (b.rawPhase raw t).last_change = if raw ≠ b.last_raw then t else b.last_change := by
  unfold SimpleButton.rawPhase
  split <;> simp_all

theorem debouncePhase_last_raw (b : SimpleButton) (raw t : Nat) :
    (b.debouncePhase raw t).1.last_raw = b.last_raw := by
  unfold SimpleButton.debouncePhase
  repeat' split
  all_goals rfl

theorem debouncePhase_last_change (b : SimpleButton) (raw t : Nat) :
    (b.debouncePhase raw t).1.last_change = b.last_change := by
  unfold SimpleButton.debouncePhase
  repeat' split
  all_goals rfl

theorem heldPhase_last_raw (b : SimpleButton) (t : Nat) :
    (b.heldPhase t).1.last_raw = b.last_raw := by
  unfold SimpleButton.heldPhase
  repeat' split
  all_goals rfl

theorem heldPhase_last_change (b : SimpleButton) (t : Nat) :
    (b.heldPhase t).1.last_change = b.last_change := by
  unfold SimpleButton.heldPhase
  repeat' split
  all_goals rfl

theorem heldPhase_stable (b : SimpleButton) (t : Nat) :
    (b.heldPhase t).1.stable = b.stable := by
  unfold SimpleButton.heldPhase
  repeat' split
  all_goals rfl

theorem heldPhase_pressed_time (b : SimpleButton) (t : Nat) :
    (b.heldPhase t).1.pressed_time = b.pressed_time := by
  unfold SimpleButton.heldPhase
  repeat' split
  all_goals rfl

/-- Everything the debounce block can do, as one disjunction. -/
theorem debouncePhase_cases (b : SimpleButton) (raw t : Nat) :
    (b.debouncePhase raw t = (b, []) ∧
        ¬(ticks_diff t b.last_change ≥ (DEBOUNCE_MS : Int) ∧ raw ≠ b.stable)) ∨
      (ticks_diff t b.last_change ≥ (DEBOUNCE_MS : Int) ∧ raw ≠ b.stable ∧ raw = 0 ∧
        b.debouncePhase raw t =
          ({ b with stable := raw, pressed_time := some t, last_held_print := some t },
            [Event.down])) ∨
      (ticks_diff t b.last_change ≥ (DEBOUNCE_MS : Int) ∧ raw ≠ b.stable ∧ raw ≠ 0 ∧
        b.debouncePhase raw t =
          ({ b with stable := raw, pressed_time := none, last_held_print := none },
            [Event.up])) := by
  unfold SimpleButton.debouncePhase
  split_ifs with h1 h2 h3
  · right; left; exact ⟨h1, h2, h3, rfl⟩
  · right; right; exact ⟨h1, h2, h3, rfl⟩
  · left; exact ⟨rfl, by tauto⟩
  · left; exact ⟨rfl, by tauto⟩

/-- Everything the heartbeat block can do, as one disjunction. -/
theorem heldPhase_cases (b : SimpleButton) (t : Nat) :
    (b.heldPhase t = (b, []) ∧
        ¬(b.stable = 0 ∧ b.pressed_time.isSome = true ∧
          ∃ lh, b.last_held_print = some lh ∧
            ticks_diff t lh ≥ (HELD_PRINT_INTERVAL_MS : Int))) ∨
      (∃ lh, b.stable = 0 ∧ b.pressed_time.isSome = true ∧ b.last_held_print = some lh ∧
        ticks_diff t lh ≥ (HELD_PRINT_INTERVAL_MS : Int) ∧
        b.heldPhase t = ({ b with last_held_print := some t }, [Event.held])) := by
  unfold SimpleButton.heldPhase
  split_ifs with h1
  · obtain ⟨hs, hp⟩ := h1
    cases hlh : b.last_held_print with
    | none =>
      left
      refine ⟨rfl, ?_⟩
      rintro ⟨-, -, lh, hlh2, -⟩
      exact Option.noConfusion hlh2
    | some lh =>
      dsimp only
      split_ifs with h2
      · right
        exact ⟨lh, hs, hp, rfl, h2, rfl⟩
      · left
        refine ⟨rfl, ?_⟩
        rintro ⟨-, -, lh2, hlh2, hd⟩
        cases hlh2
        exact h2 hd
  · left
    refine ⟨rfl, ?_⟩
    rintro ⟨hs, hp, -⟩
    exact h1 ⟨hs, hp⟩

theorem update_eq (b : SimpleButton) (raw t : Nat) :
    b.update raw t =
      ((((b.rawPhase raw t).debouncePhase raw t).1.heldPhase t).1,
        ((b.rawPhase raw t).debouncePhase raw t).2 ++
          (((b.rawPhase raw t).debouncePhase raw t).1.heldPhase t).2) := rfl

theorem runTrace_cons (b : SimpleButton) (s : Nat × Nat) (rest : List (Nat × Nat)) :
    runTrace b (s :: rest) =
      ((runTrace (b.update s.1 s.2).1 rest).1,
        (b.update s.1 s.2).2.map (fun e => (s.2, e)) ++
          (runTrace (b.update s.1 s.2).1 rest).2) := rfl

theorem heldPhase_mem (b : SimpleButton) (t : Nat) :
    ∀ e ∈ (b.heldPhase t).2, e = Event.held := by
  rcases heldPhase_cases b t with ⟨heq, -⟩ | ⟨lh, -, -, -, -, heq⟩ <;> simp [heq]

theorem update_last_raw (b : SimpleButton) (raw t : Nat) :
    (b.update raw t).1.last_raw = (b.rawPhase raw t).last_raw := by
  rw [update_eq]
  exact (heldPhase_last_raw _ _).trans (debouncePhase_last_raw _ _ _)

theorem update_last_change (b : SimpleButton) (raw t : Nat) :
    (b.update raw t).1.last_change = (b.rawPhase raw t).last_change := by
  rw [update_eq]
  exact (heldPhase_last_change _ _).trans (debouncePhase_last_change _ _ _)

/-- Along any trace, `last_raw`/`last_change` are exactly the spec-side
`rawHistory` of the samples. -/
theorem runTrace_rawHistory :
    ∀ (samples : List (Nat × Nat)) (b : SimpleButton),
      (runTrace b samples).1.last_raw = (rawHistory b.last_raw b.last_change samples).1 ∧
        (runTrace b samples).1.last_change = (rawHistory b.last_raw b.last_change samples).2 := by
  intro samples
  induction samples with
  | nil => intro b; exact ⟨rfl, rfl⟩
  | cons s rest ih =>
    intro b
    rw [runTrace_cons]
    have h1 := ih (b.update s.1 s.2).1
    rw [update_last_raw, update_last_change] at h1
    have hfold : rawHistory b.last_raw b.last_change (s :: rest) =
        rawHistory (b.rawPhase s.1 s.2).last_raw (b.rawPhase s.1 s.2).last_change rest := by
      unfold rawHistory
      rw [List.foldl_cons]
      congr 1
      rw [rawPhase_last_raw, rawPhase_last_change]
      dsimp only
      split_ifs <;> rfl
    rw [hfold]
    exact h1

/-- A tick emits `DOWN` or `UP` exactly when the sample equals the previous
raw sample, the debounce window has elapsed since the last raw change, and
the sample differs from the stable level. -/
theorem step_transition_iff (b : SimpleButton) (raw t : Nat) :
    (Event.down ∈ (b.update raw t).2 ∨ Event.up ∈ (b.update raw t).2) ↔
      (raw = b.last_raw ∧ ticks_diff t b.last_change ≥ (DEBOUNCE_MS : Int) ∧
        raw ≠ b.stable) := by
  rw [update_eq]
  by_cases hlr : raw = b.last_raw
  · have hb1 : b.rawPhase raw t = b := by
      unfold SimpleButton.rawPhase
      rw [if_neg (by simp [hlr])]
    rw [hb1]
    rcases debouncePhase_cases b raw t with ⟨heq, hng⟩ | ⟨hg, hne, hz, heq⟩ |
        ⟨hg, hne, hz, heq⟩
    · rw [heq]
      simp only [List.nil_append]
      constructor
      · rintro (hd | hu)
        · exact absurd (heldPhase_mem _ _ _ hd) (by decide)
        · exact absurd (heldPhase_mem _ _ _ hu) (by decide)
      · rintro ⟨-, hg2, hne2⟩
        exact absurd ⟨hg2, hne2⟩ hng
    · rw [heq]
      simp only [List.cons_append, List.mem_cons]
      exact ⟨fun _ => ⟨hlr, hg, hne⟩, fun _ => by simp⟩
    · rw [heq]
      simp only [List.cons_append, List.mem_cons]
      exact ⟨fun _ => ⟨hlr, hg, hne⟩, fun _ => by simp⟩
  · have hb1 : b.rawPhase raw t = { b with last_raw := raw, last_change := t } := by
      unfold SimpleButton.rawPhase
      rw [if_pos (by simp [hlr])]
    rw [hb1]
    rcases debouncePhase_cases { b with last_raw := raw, last_change := t } raw t with
        ⟨heq, hng⟩ | ⟨hg, hne, hz, heq⟩ | ⟨hg, hne, hz, heq⟩
    · rw [heq]
      simp only [List.nil_append]
      constructor
      · rintro (hd | hu)
        · exact absurd (heldPhase_mem _ _ _ hd) (by decide)
        · exact absurd (heldPhase_mem _ _ _ hu) (by decide)
      · rintro ⟨hlr2, -, -⟩
        exact (hlr hlr2).elim
    · exfalso
      have h0 : ticks_diff t t ≥ (DEBOUNCE_MS : Int) := hg
      simp only [ticks_diff, DEBOUNCE_MS] at h0
      omega
    · exfalso
      have h0 : ticks_diff t t ≥ (DEBOUNCE_MS : Int) := hg
      simp only [ticks_diff, DEBOUNCE_MS] at h0
      omega

theorem rawHistory_cons_rawPhase (b : SimpleButton) (s : Nat × Nat)
    (xs : List (Nat × Nat)) :
    rawHistory b.last_raw b.last_change (s :: xs) =
      rawHistory (b.rawPhase s.1 s.2).last_raw (b.rawPhase s.1 s.2).last_change xs := by
  unfold rawHistory
  rw [List.foldl_cons]
  congr 1
  rw [rawPhase_last_raw, rawPhase_last_change]
  dsimp only
  split_ifs <;> rfl

theorem rawHistory_append_single (r0 t0 : Nat) (xs : List (Nat × Nat)) (s : Nat × Nat) :
    rawHistory r0 t0 (xs ++ [s]) =
      if s.1 ≠ (rawHistory r0 t0 xs).1 then (s.1, s.2) else rawHistory r0 t0 xs := by
  unfold rawHistory
  rw [List.foldl_append, List.foldl_cons, List.foldl_nil]

/-- Samples that always restart or stay inside the debounce window produce no
`DOWN`/`UP` at all. -/
theorem no_transition_of_bounce :
    ∀ (samples : List (Nat × Nat)) (b : SimpleButton),
      (∀ i (h : i < samples.length),
        ticks_diff (samples.get ⟨i, h⟩).2
            (rawHistory b.last_raw b.last_change (samples.take (i + 1))).2 <
          (DEBOUNCE_MS : Int)) →
      ∀ p ∈ (runTrace b samples).2, p.2 = Event.held := by
  intro samples
  induction samples with
  | nil => intro b _ p hp; simp [runTrace] at hp
  | cons s rest ih =>
    intro b hbounce p hp
    rw [runTrace_cons] at hp
    have h0 : ticks_diff s.2
        (rawHistory b.last_raw b.last_change [s]).2 < (DEBOUNCE_MS : Int) :=
      hbounce 0 (by simp)
    have hlc : (rawHistory b.last_raw b.last_change [s]).2 =
        (b.rawPhase s.1 s.2).last_change := by
      rw [rawHistory_cons_rawPhase b s []]
      rfl
    rw [hlc] at h0
    have hng : ¬(ticks_diff s.2 (b.rawPhase s.1 s.2).last_change ≥ (DEBOUNCE_MS : Int)) := by
      omega
    have hquiet : (b.rawPhase s.1 s.2).debouncePhase s.1 s.2 = (b.rawPhase s.1 s.2, []) := by
      rcases debouncePhase_cases (b.rawPhase s.1 s.2) s.1 s.2 with ⟨heq, -⟩ |
          ⟨hg, -, -, -⟩ | ⟨hg, -, -, -⟩
      · exact heq
      · exact absurd hg hng
      · exact absurd hg hng
    rw [update_eq, hquiet] at hp
    simp only [List.nil_append, List.mem_append, List.mem_map] at hp
    rcases hp with ⟨e, he, rfl⟩ | hp
    · exact heldPhase_mem _ _ e he
    · refine ih (b.update s.1 s.2).1 ?_ p ?_
      · intro i h
        have := hbounce (i + 1) (by simpa using Nat.succ_lt_succ h)
        have hsg : ((s :: rest).get ⟨i + 1, Nat.succ_lt_succ h⟩) = rest.get ⟨i, h⟩ := rfl
        have htk : (s :: rest).take (i + 1 + 1) = s :: rest.take (i + 1) := rfl
        rw [htk, rawHistory_cons_rawPhase b s (rest.take (i + 1))] at this
        rw [← update_last_raw b s.1 s.2, ← update_last_change b s.1 s.2] at this
        exact this
      · rw [update_eq, hquiet]
        exact hp

/-- Proof device: the stable level read as the transition event that would
have committed it. -/
def stableTok (b : SimpleButton) : Event :=
  if b.stable = 0 then Event.down else Event.up

theorem transitions_map_append (evs : List Event) (tv : List (Nat × Event)) (t : Nat) :
    transitions (evs.map (fun e => (t, e)) ++ tv) =
      evs.filter isTransition ++ transitions tv := by
  unfold transitions
  rw [List.map_append, List.filter_append]
  congr 1
  rw [List.map_map]
  simp

theorem heldPhase_filter_transitions (b : SimpleButton) (t : Nat) :
    (b.heldPhase t).2.filter isTransition = [] := by
  rcases heldPhase_cases b t with ⟨heq, -⟩ | ⟨lh, -, -, -, -, heq⟩ <;>
    simp [heq, isTransition]

theorem heldPhase_quiet_of_lhp_now (b : SimpleButton) (t : Nat)
    (h : b.last_held_print = some t) : b.heldPhase t = (b, []) := by
  rcases heldPhase_cases b t with ⟨heq, -⟩ | ⟨lh, -, -, hlh, hd, -⟩
  · exact heq
  · rw [h] at hlh
    cases hlh
    exfalso
    simp only [ticks_diff, HELD_PRINT_INTERVAL_MS] at hd
    omega

theorem heldPhase_quiet_of_stable_ne (b : SimpleButton) (t : Nat) (h : ¬b.stable = 0) :
    b.heldPhase t = (b, []) := by
  rcases heldPhase_cases b t with ⟨heq, -⟩ | ⟨lh, hs0, -, -, -, -⟩
  · exact heq
  · exact absurd hs0 h

/-- The `DOWN`/`UP` stream strictly alternates, and its polarity always agrees
with the current stable level. -/
theorem alternation_aux :
    ∀ (samples : List (Nat × Nat)) (b : SimpleButton),
      (b.stable = 0 ∨ b.stable = 1) → (∀ s ∈ samples, s.1 = 0 ∨ s.1 = 1) →
      List.Chain' (fun a c => a ≠ c)
        (stableTok b :: transitions (runTrace b samples).2) := by
  intro samples
  induction samples with
  | nil =>
    intro b _ _
    simp [runTrace, transitions]
  | cons s rest ih =>
    intro b hst hs
    rw [runTrace_cons, update_eq]
    rcases debouncePhase_cases (b.rawPhase s.1 s.2) s.1 s.2 with ⟨heq, hng⟩ |
        ⟨hg, hne, hz, heq⟩ | ⟨hg, hne, hz, heq⟩
    · rw [heq]
      rw [transitions_map_append, List.filter_append, heldPhase_filter_transitions]
      simp only [List.filter_nil, List.nil_append]
      have hstable : (((b.rawPhase s.1 s.2).heldPhase s.2).1).stable = b.stable := by
        rw [heldPhase_stable, rawPhase_stable]
      have hrec := ih (((b.rawPhase s.1 s.2).heldPhase s.2).1) (by rw [hstable]; exact hst)
        (fun x hx => hs x (List.mem_cons_of_mem s hx))
      rw [show stableTok (((b.rawPhase s.1 s.2).heldPhase s.2).1) = stableTok b by
        unfold stableTok; rw [hstable]] at hrec
      exact hrec
    · have hbstable : ¬b.stable = 0 := by
        rw [← rawPhase_stable b s.1 s.2, ← hz]
        exact fun hc => hne hc.symm
      rw [heq]
      rw [heldPhase_quiet_of_lhp_now { b.rawPhase s.1 s.2 with
        stable := s.1, pressed_time := some s.2, last_held_print := some s.2 } s.2 rfl]
      rw [transitions_map_append]
      simp only [List.append_nil, List.filter_cons, List.filter_nil]
      rw [show isTransition Event.down = true from rfl]
      simp only [if_true]
      rw [show stableTok b = Event.up from by unfold stableTok; rw [if_neg hbstable]]
      have hrec := ih { b.rawPhase s.1 s.2 with
          stable := s.1, pressed_time := some s.2, last_held_print := some s.2 }
        (Or.inl hz) (fun x hx => hs x (List.mem_cons_of_mem s hx))
      rw [show stableTok { b.rawPhase s.1 s.2 with
          stable := s.1, pressed_time := some s.2, last_held_print := some s.2 } =
        Event.down from by unfold stableTok; rw [if_pos hz]] at hrec
      exact List.Chain'.cons (by decide) hrec
    · have hs1 : s.1 = 1 := by
        rcases hs s (List.mem_cons_self s rest) with h | h
        · exact absurd h hz
        · exact h
      have hbstable : b.stable = 0 := by
        rcases hst with h | h
        · exact h
        · exfalso
          apply hne
          rw [rawPhase_stable b s.1 s.2, h, hs1]
      rw [heq]
      rw [heldPhase_quiet_of_stable_ne { b.rawPhase s.1 s.2 with
        stable := s.1, pressed_time := none, last_held_print := none } s.2 hz]
      rw [transitions_map_append]
      simp only [List.append_nil, List.filter_cons, List.filter_nil]
      rw [show isTransition Event.up = true from rfl]
      simp only [if_true]
      rw [show stableTok b = Event.down from by unfold stableTok; rw [if_pos hbstable]]
      have hsz : ({ b.rawPhase s.1 s.2 with
          stable := s.1, pressed_time := none, last_held_print := none } :
        SimpleButton).stable = 1 := hs1
      have hrec := ih { b.rawPhase s.1 s.2 with
          stable := s.1, pressed_time := none, last_held_print := none }
        (Or.inr hsz) (fun x hx => hs x (List.mem_cons_of_mem s hx))
      rw [show stableTok { b.rawPhase s.1 s.2 with
          stable := s.1, pressed_time := none, last_held_print := none } =
        Event.up from by unfold stableTok; rw [if_neg (by rw [hsz]; exact one_ne_zero)]] at hrec
      exact List.Chain'.cons (by decide) hrec

/-- C2: along any trace of pin samples, a tick emits `DOWN`/`UP` iff the raw
level is unchanged since a time at least the debounce window ago and differs
from the current stable level; sample sequences that always bounce inside the
window emit no transitions at all; and the emitted `DOWN`/`UP` stream never
repeats an event, so duplicate consecutive `DOWN`s or `UP`s are impossible. -/
theorem debounce_transition_characterization :
    (∀ (r0 t0 : Nat) (samples : List (Nat × Nat)) (raw t : Nat),
        (Event.down ∈ ((runTrace (SimpleButton.init r0 t0) samples).1.update raw t).2 ∨
            Event.up ∈ ((runTrace (SimpleButton.init r0 t0) samples).1.update raw t).2) ↔
          (ticks_diff t (rawHistory r0 t0 (samples ++ [(raw, t)])).2 ≥ (DEBOUNCE_MS : Int) ∧
            raw ≠ (runTrace (SimpleButton.init r0 t0) samples).1.stable)) ∧
      (∀ (r0 t0 : Nat) (samples : List (Nat × Nat)),
          (∀ i (h : i < samples.length),
            ticks_diff (samples.get ⟨i, h⟩).2
                (rawHistory r0 t0 (samples.take (i + 1))).2 < (DEBOUNCE_MS : Int)) →
          ∀ p ∈ (runTrace (SimpleButton.init r0 t0) samples).2, p.2 = Event.held) ∧
      (∀ (r0 t0 : Nat) (samples : List (Nat × Nat)),
          (r0 = 0 ∨ r0 = 1) → (∀ s ∈ samples, s.1 = 0 ∨ s.1 = 1) →
          List.Chain' (fun a c => a ≠ c)
            (transitions (runTrace (SimpleButton.init r0 t0) samples).2)) := by
  refine ⟨?_, ?_, ?_⟩
  · intro r0 t0 samples raw t
    obtain ⟨h1, h2⟩ := runTrace_rawHistory samples (SimpleButton.init r0 t0)
    have h1a : (runTrace (SimpleButton.init r0 t0) samples).1.last_raw =
        (rawHistory r0 t0 samples).1 := h1
    have h2a : (runTrace (SimpleButton.init r0 t0) samples).1.last_change =
        (rawHistory r0 t0 samples).2 := h2
    rw [step_transition_iff, rawHistory_append_single]
    by_cases hcase : raw = (rawHistory r0 t0 samples).1
    · rw [if_neg (show ¬((raw, t).1 ≠ (rawHistory r0 t0 samples).1) from by
        simp [hcase])]
      rw [← h2a]
      constructor
      · rintro ⟨-, hx, hy⟩
        exact ⟨hx, hy⟩
      · rintro ⟨hx, hy⟩
        exact ⟨by rw [h1a]; exact hcase, hx, hy⟩
    · rw [if_pos (show (raw, t).1 ≠ (rawHistory r0 t0 samples).1 from by
        simpa using hcase)]
      constructor
      · rintro ⟨he, -, -⟩
        exact absurd (he.trans h1a) hcase
      · rintro ⟨hf, -⟩
        exfalso
        have hf2 : ticks_diff t t ≥ (DEBOUNCE_MS : Int) := hf
        simp only [ticks_diff, DEBOUNCE_MS] at hf2
        omega
  · intro r0 t0 samples hb
    exact no_transition_of_bounce samples (SimpleButton.init r0 t0) hb
  · intro r0 t0 samples h0 hs
    have hc := alternation_aux samples (SimpleButton.init r0 t0) h0 hs
    exact (List.chain'_cons'.mp hc).2

/-- Concrete instance of `debounce_transition_characterization`: a bouncing
sample pair emits nothing, and a release-press sequence emits the strictly
alternating `UP`, `DOWN`. -/
theorem debounce_transition_characterization_witness :
    (∀ p ∈ (runTrace (SimpleButton.init 1 0) [(0, 10), (0, 20)]).2, p.2 = Event.held) ∧
      List.Chain' (fun a c => a ≠ c)
        (transitions (runTrace (SimpleButton.init 0 0)
          [(1, 0), (1, 30), (0, 40), (0, 70)]).2) :=
  ⟨debounce_transition_characterization.2.1 1 0 [(0, 10), (0, 20)] (by decide),
    debounce_transition_characterization.2.2 0 0 [(1, 0), (1, 30), (0, 40), (0, 70)]
      (by decide) (by decide)⟩

theorem heldPhase_quiet_of_pt_none (b : SimpleButton) (t : Nat)
    (h : b.pressed_time = none) : b.heldPhase t = (b, []) := by
  rcases heldPhase_cases b t with ⟨heq, -⟩ | ⟨lh, -, hpt, -, -, -⟩
  · exact heq
  · rw [h] at hpt
    cases hpt

theorem downHeldEvents_map_append (evs : List Event) (tv : List (Nat × Event)) (t : Nat) :
    downHeldEvents (evs.map (fun e => (t, e)) ++ tv) =
      (evs.filter isDownHeld).map (fun e => (t, e)) ++ downHeldEvents tv := by
  unfold downHeldEvents
  rw [List.filter_append]
  congr 1
  rw [List.filter_map]
  rfl

/-- Proof device: the pending `last_held_print` timestamp read as a virtual
`DOWN` event, so that heartbeat spacing can be chained through it. -/
def lhpMarker (b : SimpleButton) : List (Nat × Event) :=
  match b.last_held_print with
  | some lh => [(lh, Event.down)]
  | none => []

/-- Heartbeat separation: a `HELD` event comes at least the heartbeat interval
after the previous `DOWN`/`HELD` event. -/
def heldSep : (Nat × Event) → (Nat × Event) → Prop :=
  fun a c => c.2 = Event.held → ticks_diff c.1 a.1 ≥ (HELD_PRINT_INTERVAL_MS : Int)

/-- While no press has been registered, the first `DOWN`/`HELD` event that can
appear in the future trace is a `DOWN`. -/
theorem first_downHeld_down :
    ∀ (samples : List (Nat × Nat)) (b : SimpleButton), b.pressed_time = none →
      ∀ p, (downHeldEvents (runTrace b samples).2).head? = some p → p.2 = Event.down := by
  intro samples
  induction samples with
  | nil =>
    intro b _ p hp
    simp [runTrace, downHeldEvents] at hp
  | cons s rest ih =>
    intro b hpt p hp
    rw [runTrace_cons, update_eq, downHeldEvents_map_append] at hp
    have hpt1 : (b.rawPhase s.1 s.2).pressed_time = none := by
      rw [rawPhase_pressed_time]
      exact hpt
    rcases debouncePhase_cases (b.rawPhase s.1 s.2) s.1 s.2 with ⟨heq, -⟩ |
        ⟨hg, hne, hz, heq⟩ | ⟨hg, hne, hz, heq⟩
    · rw [heq, heldPhase_quiet_of_pt_none _ _ hpt1] at hp
      simp only [List.nil_append, List.filter_nil, List.map_nil] at hp
      exact ih (b.rawPhase s.1 s.2) hpt1 p hp
    · rw [heq, heldPhase_quiet_of_lhp_now { b.rawPhase s.1 s.2 with
        stable := s.1, pressed_time := some s.2, last_held_print := some s.2 } s.2 rfl] at hp
      simp only [List.append_nil] at hp
      rw [show (Event.down :: []).filter isDownHeld = [Event.down] from rfl] at hp
      simp only [List.map_cons, List.map_nil, List.cons_append, List.head?_cons,
        Option.some.injEq] at hp
      rw [← hp]
    · rw [heq, heldPhase_quiet_of_stable_ne { b.rawPhase s.1 s.2 with
        stable := s.1, pressed_time := none, last_held_print := none } s.2 hz] at hp
      simp only [List.append_nil] at hp
      rw [show (Event.up :: []).filter isDownHeld = [] from rfl] at hp
      simp only [List.map_nil, List.nil_append] at hp
      exact ih ({ b.rawPhase s.1 s.2 with
        stable := s.1, pressed_time := none, last_held_print := none }) rfl p hp

/-- Heartbeat spacing, with any pending `last_held_print` chained in front:
every `HELD` is at least the heartbeat interval after the previous
`DOWN`/`HELD`. -/
theorem heartbeat_chain :
    ∀ (samples : List (Nat × Nat)) (b : SimpleButton),
      b.pressed_time.isSome = b.last_held_print.isSome →
      List.Chain' heldSep (lhpMarker b ++ downHeldEvents (runTrace b samples).2) := by
  intro samples
  induction samples with
  | nil =>
    intro b _
    unfold lhpMarker
    cases b.last_held_print <;> simp [runTrace, downHeldEvents]
  | cons s rest ih =>
    intro b hpl
    rw [runTrace_cons, update_eq, downHeldEvents_map_append]
    have hpl1 : (b.rawPhase s.1 s.2).pressed_time.isSome =
        (b.rawPhase s.1 s.2).last_held_print.isSome := by
      rw [rawPhase_pressed_time, rawPhase_last_held_print]
      exact hpl
    have hlhpm : lhpMarker (b.rawPhase s.1 s.2) = lhpMarker b := by
      unfold lhpMarker
      rw [rawPhase_last_held_print]
    rcases debouncePhase_cases (b.rawPhase s.1 s.2) s.1 s.2 with ⟨heq, -⟩ |
        ⟨hg, hne, hz, heq⟩ | ⟨hg, hne, hz, heq⟩
    · rw [heq]
      rcases heldPhase_cases (b.rawPhase s.1 s.2) s.2 with ⟨heq2, -⟩ |
          ⟨lh, hs0, hpt, hlh, hd, heq2⟩
      · rw [heq2]
        simp only [List.nil_append, List.filter_nil, List.map_nil]
        have hrec := ih (b.rawPhase s.1 s.2) hpl1
        rw [hlhpm] at hrec
        exact hrec
      · rw [heq2]
        simp only [List.nil_append]
        rw [show (Event.held :: []).filter isDownHeld = [Event.held] from rfl]
        simp only [List.map_cons, List.map_nil, List.cons_append]
        have hmb : lhpMarker b = [(lh, Event.down)] := by
          unfold lhpMarker
          rw [← rawPhase_last_held_print b s.1 s.2, hlh]
        rw [hmb]
        have hrec := ih { b.rawPhase s.1 s.2 with last_held_print := some s.2 }
          (by rw [show ({ b.rawPhase s.1 s.2 with last_held_print := some s.2 } :
              SimpleButton).pressed_time = (b.rawPhase s.1 s.2).pressed_time from rfl]
              rw [hpt]
              rfl)
        rw [show lhpMarker { b.rawPhase s.1 s.2 with last_held_print := some s.2 } =
          [(s.2, Event.down)] from rfl] at hrec
        simp only [List.singleton_append] at hrec ⊢
        rw [List.chain'_cons]
        constructor
        · intro _
          exact hd
        · rw [List.chain'_cons'] at hrec ⊢
          exact hrec
    · -- DOWN committed this tick
      rw [heq, heldPhase_quiet_of_lhp_now { b.rawPhase s.1 s.2 with
        stable := s.1, pressed_time := some s.2, last_held_print := some s.2 } s.2 rfl]
      simp only [List.append_nil]
      rw [show (Event.down :: []).filter isDownHeld = [Event.down] from rfl]
      simp only [List.map_cons, List.map_nil, List.cons_append]
      have hrec := ih { b.rawPhase s.1 s.2 with
          stable := s.1, pressed_time := some s.2, last_held_print := some s.2 } rfl
      rw [show lhpMarker { b.rawPhase s.1 s.2 with
          stable := s.1, pressed_time := some s.2, last_held_print := some s.2 } =
        [(s.2, Event.down)] from rfl] at hrec
      simp only [List.singleton_append] at hrec ⊢
      unfold lhpMarker
      cases hlhb : b.last_held_print with
      | none => exact hrec
      | some lh =>
        dsimp only
        rw [List.singleton_append, List.chain'_cons]
        refine ⟨?_, hrec⟩
        intro hh
        cases hh
    · -- UP committed this tick
      rw [heq, heldPhase_quiet_of_stable_ne { b.rawPhase s.1 s.2 with
        stable := s.1, pressed_time := none, last_held_print := none } s.2 hz]
      simp only [List.append_nil]
      rw [show (Event.up :: []).filter isDownHeld = [] from rfl]
      simp only [List.map_nil, List.nil_append]
      have hrec := ih { b.rawPhase s.1 s.2 with
          stable := s.1, pressed_time := none, last_held_print := none } rfl
      rw [show lhpMarker { b.rawPhase s.1 s.2 with
          stable := s.1, pressed_time := none, last_held_print := none } =
        [] from rfl] at hrec
      simp only [List.nil_append] at hrec
      unfold lhpMarker
      cases hlhb : b.last_held_print with
      | none => exact hrec
      | some lh =>
        dsimp only
        rw [List.singleton_append, List.chain'_cons']
        refine ⟨?_, hrec⟩
        intro x hx hxh
        exfalso
        have := first_downHeld_down rest ({ b.rawPhase s.1 s.2 with
          stable := s.1, pressed_time := none, last_held_print := none }) rfl x hx
        rw [this] at hxh
        cases hxh

/-- The time-and-kind of the last `DOWN`/`HELD` event of a timed trace. -/
def lastDownHeld : List (Nat × Event) → Option (Nat × Event)
  | [] => none
  | p :: rest =>
    match lastDownHeld rest with
    | some q => some q
    | none => if isDownHeld p.2 then some p else none

theorem lastDownHeld_append (a c : List (Nat × Event)) :
    lastDownHeld (a ++ c) =
      match lastDownHeld c with
      | some q => some q
      | none => lastDownHeld a := by
  induction a with
  | nil =>
    rw [List.nil_append]
    cases lastDownHeld c <;> rfl
  | cons p a ih =>
    rw [List.cons_append]
    simp only [lastDownHeld]
    rw [ih]
    cases lastDownHeld c <;> rfl

/-- `last_held_print` is exactly the time of the last `DOWN`/`HELD` event the
device has sent (or a timestamp inherited from the start state when nothing
was sent yet); `pressed_time` and `last_held_print` are `some` together. -/
theorem lhp_lastDownHeld :
    ∀ (samples : List (Nat × Nat)) (b : SimpleButton),
      b.pressed_time.isSome = b.last_held_print.isSome →
      ((runTrace b samples).1.pressed_time.isSome =
          (runTrace b samples).1.last_held_print.isSome) ∧
        ∀ lh, (runTrace b samples).1.last_held_print = some lh →
          (∃ e, lastDownHeld (runTrace b samples).2 = some (lh, e) ∧
              (e = Event.down ∨ e = Event.held)) ∨
            (lastDownHeld (runTrace b samples).2 = none ∧ b.last_held_print = some lh) := by
  intro samples
  induction samples with
  | nil =>
    intro b hpl
    exact ⟨hpl, fun lh h => Or.inr ⟨rfl, h⟩⟩
  | cons s rest ih =>
    intro b hpl
    rw [runTrace_cons, update_eq]
    have hpl1 : (b.rawPhase s.1 s.2).pressed_time.isSome =
        (b.rawPhase s.1 s.2).last_held_print.isSome := by
      rw [rawPhase_pressed_time, rawPhase_last_held_print]
      exact hpl
    rcases debouncePhase_cases (b.rawPhase s.1 s.2) s.1 s.2 with ⟨heq, -⟩ |
        ⟨hg, hne, hz, heq⟩ | ⟨hg, hne, hz, heq⟩
    · rw [heq]
      rcases heldPhase_cases (b.rawPhase s.1 s.2) s.2 with ⟨heq2, -⟩ |
          ⟨lh0, hs0, hpt, hlh0, hd, heq2⟩
      · rw [heq2]
        simp only [List.nil_append, List.map_nil]
        obtain ⟨g1, g2⟩ := ih (b.rawPhase s.1 s.2) hpl1
        refine ⟨g1, fun lh h => ?_⟩
        rcases g2 lh h with hc | ⟨hnone, hcar⟩
        · exact Or.inl hc
        · rw [rawPhase_last_held_print] at hcar
          exact Or.inr ⟨hnone, hcar⟩
      · rw [heq2]
        simp only [List.nil_append, List.map_cons, List.map_nil]
        obtain ⟨g1, g2⟩ := ih { b.rawPhase s.1 s.2 with last_held_print := some s.2 }
          (by rw [show ({ b.rawPhase s.1 s.2 with last_held_print := some s.2 } :
              SimpleButton).pressed_time = (b.rawPhase s.1 s.2).pressed_time from rfl, hpt]
              rfl)
        refine ⟨g1, fun lh h => ?_⟩
        rw [lastDownHeld_append]
        rcases g2 lh h with ⟨e, he, hek⟩ | ⟨hnone, hcar⟩
        · rw [he]
          exact Or.inl ⟨e, rfl, hek⟩
        · rw [hnone]
          have : lh = s.2 := by
            rw [show ({ b.rawPhase s.1 s.2 with last_held_print := some s.2 } :
              SimpleButton).last_held_print = some s.2 from rfl] at hcar
            cases hcar
            rfl
          subst this
          exact Or.inl ⟨Event.held, rfl, Or.inr rfl⟩
    · rw [heq, heldPhase_quiet_of_lhp_now { b.rawPhase s.1 s.2 with
        stable := s.1, pressed_time := some s.2, last_held_print := some s.2 } s.2 rfl]
      simp only [List.append_nil, List.map_cons, List.map_nil]
      obtain ⟨g1, g2⟩ := ih { b.rawPhase s.1 s.2 with
        stable := s.1, pressed_time := some s.2, last_held_print := some s.2 } rfl
      refine ⟨g1, fun lh h => ?_⟩
      rw [lastDownHeld_append]
      rcases g2 lh h with ⟨e, he, hek⟩ | ⟨hnone, hcar⟩
      · rw [he]
        exact Or.inl ⟨e, rfl, hek⟩
      · rw [hnone]
        have : lh = s.2 := by
          rw [show ({ b.rawPhase s.1 s.2 with
                stable := s.1, pressed_time := some s.2, last_held_print := some s.2 } :
              SimpleButton).last_held_print = some s.2 from rfl] at hcar
          cases hcar
          rfl
        subst this
        exact Or.inl ⟨Event.down, rfl, Or.inl rfl⟩
    · rw [heq, heldPhase_quiet_of_stable_ne { b.rawPhase s.1 s.2 with
        stable := s.1, pressed_time := none, last_held_print := none } s.2 hz]
      simp only [List.append_nil, List.map_cons, List.map_nil]
      obtain ⟨g1, g2⟩ := ih { b.rawPhase s.1 s.2 with
        stable := s.1, pressed_time := none, last_held_print := none } rfl
      refine ⟨g1, fun lh h => ?_⟩
      rw [lastDownHeld_append]
      rcases g2 lh h with ⟨e, he, hek⟩ | ⟨hnone, hcar⟩
      · rw [he]
        exact Or.inl ⟨e, rfl, hek⟩
      · exact absurd hcar (by
          rw [show ({ b.rawPhase s.1 s.2 with
                stable := s.1, pressed_time := none, last_held_print := none } :
              SimpleButton).last_held_print = none from rfl]
          exact fun hc => Option.noConfusion hc)

/-- A tick on a pressed stable state emits `HELD` exactly when it does not emit
`UP` (the press survives) and the heartbeat interval has elapsed since the
`last_held_print` timestamp. -/
theorem held_emission_iff (b : SimpleButton) (raw t lh : Nat)
    (hs : b.stable = 0) (hpt : b.pressed_time.isSome = true)
    (hlh : b.last_held_print = some lh) :
    Event.held ∈ (b.update raw t).2 ↔
      (Event.up ∉ (b.update raw t).2 ∧
        ticks_diff t lh ≥ (HELD_PRINT_INTERVAL_MS : Int)) := by
  rw [update_eq]
  have hs1 : (b.rawPhase raw t).stable = 0 := by rw [rawPhase_stable]; exact hs
  have hpt1 : (b.rawPhase raw t).pressed_time.isSome = true := by
    rw [rawPhase_pressed_time]; exact hpt
  have hlh1 : (b.rawPhase raw t).last_held_print = some lh := by
    rw [rawPhase_last_held_print]; exact hlh
  rcases debouncePhase_cases (b.rawPhase raw t) raw t with ⟨heq, -⟩ |
      ⟨hg, hne, hz, heq⟩ | ⟨hg, hne, hz, heq⟩
  · rw [heq]
    simp only [List.nil_append]
    rcases heldPhase_cases (b.rawPhase raw t) t with ⟨heq2, hng⟩ |
        ⟨lh0, -, -, hlh0, hd, heq2⟩
    · rw [heq2]
      simp only [List.not_mem_nil, or_false, iff_false, List.mem_singleton]
      constructor
      · intro hff
        cases hff
      · rintro ⟨-, hdd⟩
        exact hng ⟨hs1, hpt1, lh, hlh1, hdd⟩
    · rw [heq2]
      rw [hlh1] at hlh0
      cases hlh0
      simp only [List.mem_singleton]
      constructor
      · intro _
        exact ⟨(by decide), hd⟩
      · intro _
        trivial
  · exfalso
    apply hne
    rw [hs1]
    exact hz
  · rw [heq, heldPhase_quiet_of_stable_ne { b.rawPhase raw t with
      stable := raw, pressed_time := none, last_held_print := none } t hz]
    simp only [List.append_nil, List.mem_singleton]
    constructor
    · intro hff
      cases hff
    · rintro ⟨hup, -⟩
      exact (hup trivial).elim

/-- C3: while the stable level is pressed, `HELD` fires exactly on the ticks
where the heartbeat interval has elapsed since the last `DOWN`/`HELD`
announcement and the press survives the tick; and in the emitted stream every
`HELD` comes at least the heartbeat interval after the previous `DOWN`/`HELD`
event, so consecutive `HELD`s — and the `DOWN` before the first `HELD` — are
never closer than the interval. -/
theorem held_heartbeat_spacing :
    (∀ (r0 t0 : Nat) (samples : List (Nat × Nat)) (raw t : Nat),
        (runTrace (SimpleButton.init r0 t0) samples).1.stable = 0 →
        (runTrace (SimpleButton.init r0 t0) samples).1.pressed_time.isSome = true →
        ∃ lh e,
          lastDownHeld (runTrace (SimpleButton.init r0 t0) samples).2 = some (lh, e) ∧
            (e = Event.down ∨ e = Event.held) ∧
            (Event.held ∈ ((runTrace (SimpleButton.init r0 t0) samples).1.update raw t).2 ↔
              (Event.up ∉ ((runTrace (SimpleButton.init r0 t0) samples).1.update raw t).2 ∧
                ticks_diff t lh ≥ (HELD_PRINT_INTERVAL_MS : Int)))) ∧
      ∀ (r0 t0 : Nat) (samples : List (Nat × Nat)),
        List.Chain' heldSep
          (downHeldEvents (runTrace (SimpleButton.init r0 t0) samples).2) := by
  constructor
  · intro r0 t0 samples raw t hs hpt
    obtain ⟨g1, g2⟩ := lhp_lastDownHeld samples (SimpleButton.init r0 t0) rfl
    have hlhs : (runTrace (SimpleButton.init r0 t0)
        samples).1.last_held_print.isSome = true := by
      rw [← g1]
      exact hpt
    obtain ⟨lh, hlh⟩ := Option.isSome_iff_exists.mp hlhs
    rcases g2 lh hlh with ⟨e, he, hek⟩ | ⟨-, hcar⟩
    · exact ⟨lh, e, he, hek, held_emission_iff _ raw t lh hs hpt hlh⟩
    · exact absurd hcar (by
        rw [show (SimpleButton.init r0 t0).last_held_print = none from rfl]
        exact fun hc => Option.noConfusion hc)
  · intro r0 t0 samples
    have hc := heartbeat_chain samples (SimpleButton.init r0 t0) rfl
    rw [show lhpMarker (SimpleButton.init r0 t0) = [] from rfl, List.nil_append] at hc
    exact hc

/-- Concrete instance of `held_heartbeat_spacing`: after a debounced press at
30 ms the tick at 230 ms emits `HELD` (200 ms elapsed), and the trace with
further all-pressed polls yields `DOWN`/`HELD`s spaced by the interval. -/
theorem held_heartbeat_spacing_witness :
    (∃ lh e,
        lastDownHeld (runTrace (SimpleButton.init 1 0) [(0, 0), (0, 30), (0, 100)]).2 =
          some (lh, e) ∧
          (e = Event.down ∨ e = Event.held) ∧
          (Event.held ∈ ((runTrace (SimpleButton.init 1 0)
                [(0, 0), (0, 30), (0, 100)]).1.update 0 230).2 ↔
            (Event.up ∉ ((runTrace (SimpleButton.init 1 0)
                [(0, 0), (0, 30), (0, 100)]).1.update 0 230).2 ∧
              ticks_diff 230 lh ≥ (HELD_PRINT_INTERVAL_MS : Int)))) ∧
      List.Chain' heldSep (downHeldEvents (runTrace (SimpleButton.init 1 0)
        [(0, 0), (0, 30), (0, 100), (0, 230), (0, 430)]).2) :=
  ⟨held_heartbeat_spacing.1 1 0 [(0, 0), (0, 30), (0, 100)] 0 230 (by decide) (by decide),
    held_heartbeat_spacing.2 1 0 [(0, 0), (0, 30), (0, 100), (0, 230), (0, 430)]⟩

/-- From a state that is already stably pressed with no registered press, no
`DOWN`/`HELD` can come before the first `UP`. -/
theorem pressed_init_first_event :
    ∀ (samples : List (Nat × Nat)) (b : SimpleButton),
      b.stable = 0 → b.pressed_time = none →
      (∀ p, ((runTrace b samples).2).head? = some p → p.2 = Event.up) ∧
        ((∀ s ∈ samples, s.1 = 0) →
          (runTrace b samples).2 = [] ∧ (runTrace b samples).1.pressed_time = none) := by
  intro samples
  induction samples with
  | nil =>
    intro b _ hpt
    exact ⟨fun p hp => Option.noConfusion hp, fun _ => ⟨rfl, hpt⟩⟩
  | cons s rest ih =>
    intro b hs hpt
    rw [runTrace_cons, update_eq]
    have hs1 : (b.rawPhase s.1 s.2).stable = 0 := by
      rw [rawPhase_stable]
      exact hs
    have hpt1 : (b.rawPhase s.1 s.2).pressed_time = none := by
      rw [rawPhase_pressed_time]
      exact hpt
    rcases debouncePhase_cases (b.rawPhase s.1 s.2) s.1 s.2 with ⟨heq, -⟩ |
        ⟨hg, hne, hz, heq⟩ | ⟨hg, hne, hz, heq⟩
    · rw [heq, heldPhase_quiet_of_pt_none _ _ hpt1]
      simp only [List.nil_append, List.map_nil]
      obtain ⟨g1, g2⟩ := ih (b.rawPhase s.1 s.2) hs1 hpt1
      exact ⟨g1, fun hall => g2 (fun x hx => hall x (List.mem_cons_of_mem s hx))⟩
    · exfalso
      apply hne
      rw [hs1]
      exact hz
    · rw [heq, heldPhase_quiet_of_stable_ne { b.rawPhase s.1 s.2 with
        stable := s.1, pressed_time := none, last_held_print := none } s.2 hz]
      simp only [List.append_nil, List.map_cons, List.map_nil, List.singleton_append]
      constructor
      · intro p hp
        rw [List.head?_cons] at hp
        cases hp
        rfl
      · intro hall
        exact absurd (hall s (List.mem_cons_self s rest)) hz

/-- C10: a button whose pin already reads pressed at construction emits no
`DOWN` and no `HELD` for that initial press (`pressed_time` stays `none`), and
the first event ever emitted is the `UP` of the eventual release. -/
theorem initial_pressed_first_event_up :
    ∀ (t0 : Nat) (samples : List (Nat × Nat)),
      ((∀ s ∈ samples, s.1 = 0) →
          (runTrace (SimpleButton.init 0 t0) samples).2 = [] ∧
            (runTrace (SimpleButton.init 0 t0) samples).1.pressed_time = none) ∧
        ∀ p, ((runTrace (SimpleButton.init 0 t0) samples).2).head? = some p →
          p.2 = Event.up :=
  fun t0 samples =>
    ⟨(pressed_init_first_event samples (SimpleButton.init 0 t0) rfl rfl).2,
      (pressed_init_first_event samples (SimpleButton.init 0 t0) rfl rfl).1⟩

/-- Concrete instance of `initial_pressed_first_event_up`: held-at-boot polls
emit nothing, and the first emitted event of a release is `UP`. -/
theorem initial_pressed_first_event_up_witness :
    ((runTrace (SimpleButton.init 0 0) [(0, 5), (0, 40)]).2 = [] ∧
        (runTrace (SimpleButton.init 0 0) [(0, 5), (0, 40)]).1.pressed_time = none) ∧
      ((40, Event.up) : Nat × Event).2 = Event.up :=
  ⟨(initial_pressed_first_event_up 0 [(0, 5), (0, 40)]).1 (by decide),
    (initial_pressed_first_event_up 0 [(1, 10), (1, 40)]).2 (40, Event.up) (by decide)⟩

/-! ### Game frame: obstacle/bullet collision resolution (`pygametiro.py`,
lines 217–239) -/

def HEIGHT : Int := 600

def RED_IMMUNE : Nat × Nat × Nat := (231, 76, 60)

structure Rect where
  x : Int
  y : Int
  w : Int
  h : Int
deriving DecidableEq, Repr

/-- `pygame.Rect.colliderect`: strict overlap; zero-size rectangles never
collide. -/
def Rect.colliderect (a b : Rect) : Bool :=
  decide (a.w ≠ 0 ∧ a.h ≠ 0 ∧ b.w ≠ 0 ∧ b.h ≠ 0 ∧
    a.x < b.x + b.w ∧ b.x < a.x + a.w ∧ a.y < b.y + b.h ∧ b.y < a.y + a.h)

structure Entity where
  rect : Rect
  color : Nat × Nat × Nat
deriving DecidableEq, Repr

/-- The inner `for i, bullet in enumerate(bullets)` loop (lines 221–228): the
index of the first bullet that destroys the obstacle, if any.  The immunity
test sits inside the loop exactly as in the source. -/
def bulletScan (o : Entity) : List Entity → Nat → Option Nat
  | [], _ => none
  | b :: rest, i =>
    if o.color = RED_IMMUNE then bulletScan o rest (i + 1)
    else if o.rect.colliderect b.rect then some i
    else bulletScan o rest (i + 1)

structure FrameAcc where
  survived : List Entity
  bullets_to_remove : List Nat
  score : Nat
  game_over : Bool
deriving DecidableEq, Repr

/-- `bullets_to_remove.add(i)` on a Python `set`, kept in insertion order. -/
def setAdd (s : List Nat) (i : Nat) : List Nat := if i ∈ s then s else s ++ [i]

/-- One iteration of the outer obstacle loop (lines 219–237): the updated
accumulator plus whether the loop `break`s (player hit). -/
def stepObstacle (player_rect : Rect) (bullets : List Entity) (acc : FrameAcc)
    (o : Entity) : FrameAcc × Bool :=
  match bulletScan o bullets 0 with
  | some i =>
    ({ acc with
        bullets_to_remove := setAdd acc.bullets_to_remove i, score := acc.score + 1 },
      false)
  | none =>
    if o.rect.colliderect player_rect then ({ acc with game_over := true }, true)
    else if o.rect.y > HEIGHT then ({ acc with score := acc.score + 1 }, false)
    else ({ acc with survived := acc.survived ++ [o] }, false)

def processObstacles (player_rect : Rect) (bullets : List Entity) :
    FrameAcc → List Entity → FrameAcc
  | acc, [] => acc
  | acc, o :: rest =>
    let r := stepObstacle player_rect bullets acc o
    if r.2 then r.1 else processObstacles player_rect bullets r.1 rest

/-- Line 239: drop destroyed bullets and those fully above the screen. -/
def filterBullets (bullets : List Entity) (toRemove : List Nat) : List Entity :=
  (bullets.enum.filter (fun p => !toRemove.contains p.1 &&
    decide (p.2.rect.y + p.2.rect.h > 0))).map Prod.snd

/-- C9: an obstacle with the immune sentinel color is never destroyed by a
bullet — the bullet scan finds no hit however many bullets overlap it, so it
removes no bullet and contributes no bullet-kill score (its step can only add
the off-screen survival point or end the game); and only a non-immune obstacle
can be scanned into a bullet kill. -/
theorem immune_obstacle_never_shot :
    (∀ (o : Entity) (bullets : List Entity) (i : Nat),
        o.color = RED_IMMUNE → bulletScan o bullets i = none) ∧
      (∀ (o : Entity) (bullets : List Entity) (i j : Nat),
        bulletScan o bullets i = some j → o.color ≠ RED_IMMUNE) ∧
      ∀ (player_rect : Rect) (bullets : List Entity) (acc : FrameAcc) (o : Entity),
        o.color = RED_IMMUNE →
        (stepObstacle player_rect bullets acc o).1.bullets_to_remove =
            acc.bullets_to_remove ∧
          (stepObstacle player_rect bullets acc o).1.score =
            acc.score + (if o.rect.colliderect player_rect = false ∧ o.rect.y > HEIGHT
              then 1 else 0) := by
  have part1 : ∀ (o : Entity) (bullets : List Entity) (i : Nat),
      o.color = RED_IMMUNE → bulletScan o bullets i = none := by
    intro o bullets
    induction bullets with
    | nil => intro i _; rfl
    | cons b rest ih =>
      intro i h
      unfold bulletScan
      rw [if_pos h]
      exact ih (i + 1) h
  have stepNone : ∀ (player_rect : Rect) (bullets : List Entity) (acc : FrameAcc)
      (o : Entity), bulletScan o bullets 0 = none →
      stepObstacle player_rect bullets acc o =
        (if o.rect.colliderect player_rect then ({ acc with game_over := true }, true)
          else if o.rect.y > HEIGHT then ({ acc with score := acc.score + 1 }, false)
          else ({ acc with survived := acc.survived ++ [o] }, false)) := by
    intro player_rect bullets acc o hn
    unfold stepObstacle
    rw [hn]
  refine ⟨part1, ?_, ?_⟩
  · intro o bullets i j h hcol
    rw [part1 o bullets i hcol] at h
    cases h
  · intro player_rect bullets acc o h
    rw [stepNone player_rect bullets acc o (part1 o bullets 0 h)]
    by_cases h1 : o.rect.colliderect player_rect = true
    · rw [if_pos h1, if_neg (show ¬(o.rect.colliderect player_rect = false ∧
        o.rect.y > HEIGHT) from by simp [h1])]
      exact ⟨rfl, rfl⟩
    · have h1f : o.rect.colliderect player_rect = false := by
        revert h1
        cases o.rect.colliderect player_rect <;> simp
      rw [if_neg h1]
      by_cases h2 : o.rect.y > HEIGHT
      · rw [if_pos h2, if_pos (And.intro h1f h2)]
        exact ⟨rfl, rfl⟩
      · rw [if_neg h2, if_neg (show ¬(o.rect.colliderect player_rect = false ∧
          o.rect.y > HEIGHT) from fun hc => h2 hc.2)]
        exact ⟨rfl, rfl⟩

/-- Concrete instance of `immune_obstacle_never_shot`: a bullet overlapping an
immune obstacle produces no hit and removes nothing. -/
theorem immune_obstacle_never_shot_witness :
    bulletScan ⟨⟨0, 0, 60, 60⟩, RED_IMMUNE⟩
        [⟨⟨10, 10, 10, 22⟩, (46, 204, 113)⟩] 0 = none ∧
      (stepObstacle ⟨0, 500, 50, 50⟩ [⟨⟨10, 10, 10, 22⟩, (46, 204, 113)⟩]
        ⟨[], [], 0, false⟩ ⟨⟨0, 0, 60, 60⟩, RED_IMMUNE⟩).1.bullets_to_remove = [] :=
  ⟨immune_obstacle_never_shot.1 ⟨⟨0, 0, 60, 60⟩, RED_IMMUNE⟩
      [⟨⟨10, 10, 10, 22⟩, (46, 204, 113)⟩] 0 rfl,
    by rw [(immune_obstacle_never_shot.2.2 ⟨0, 500, 50, 50⟩
      [⟨⟨10, 10, 10, 22⟩, (46, 204, 113)⟩] ⟨[], [], 0, false⟩
      ⟨⟨0, 0, 60, 60⟩, RED_IMMUNE⟩ rfl).1]⟩

end Skyfall